import Mathlib

/-!
Shallow embedding of the verification-and-award core of `src/server.js`:
the JSON record store helper, the ledger credit, the submit handler
(POST /api/verify), the approval handler (POST /api/verifications/approve)
and the direct user upsert (POST /api/users).

Machine conventions: `Date.now()` and the ISO timestamp are both modelled by
a single `now : Nat` clock value supplied by the caller; JSON numbers are
`Int` (the award amounts and ledger accumulators); absent JSON fields are
`Option`.
-/

/-- Award amounts, the `{ points, co2 }` objects of the mapping literals. -/
structure Award where
  points : Int
  co2 : Int
deriving Repr, DecidableEq

/-- Report record (free-form body irrelevant to the claims; `id` and
`timestamp` are the fields assigned at creation, lines 65-66). -/
structure Report where
  id : Nat
  timestamp : Nat
deriving Repr, DecidableEq

/-- User ledger entry stored in `users.json`: `name` plus the accumulator
fields; `email` may be carried in by the direct upsert.  Fields a record may
lack are `Option` (the credit code reads them as `x.points || 0`). -/
structure UserEntry where
  name : String
  email : Option String
  points : Option Int
  co2 : Option Int
deriving Repr, DecidableEq

/-- Verification record constructed at lines 111-119 of the source. -/
structure VerificationRecord where
  id : Nat
  user : String
  action : String
  filename : String
  originalName : String
  status : String
  timestamp : Nat
deriving Repr, DecidableEq

/-- The three durable collections (`reports.json`, `users.json`,
`verifications.json`). -/
structure St where
  reports : List Report
  users : List UserEntry
  verifications : List VerificationRecord
deriving Repr, DecidableEq

/-- What multer hands the verify handler in `req.file`. -/
structure UploadedFile where
  filename : String
  originalname : String
  size : Nat
deriving Repr, DecidableEq

/-- Model of the `readJson` helper (lines 51-53): read the backing file and
JSON-parse it, catching every exception and returning `[]`.  The filesystem
read is an `Option String` (`none` = `readFileSync` throws, e.g. the file is
absent) and `JSON.parse` is an abstract parser that may fail on corrupt
content. -/
def readJson {α : Type} (parse : String → Option (List α)) : Option String → List α
  | none => []
  | some s =>
    match parse s with
    | none => []
    | some l => l

/-- Award mapping literal declared inside the POST /api/verify handler
(line 125). -/
def verifyMapping : List (String × Award) :=
  [("plant", ⟨20, 20⟩), ("clean", ⟨10, 10⟩), ("awareness", ⟨5, 5⟩)]

/-- Award mapping literal re-declared inside the approve handler (line 171). -/
def approveMapping : List (String × Award) :=
  [("plant", ⟨20, 20⟩), ("clean", ⟨10, 10⟩), ("awareness", ⟨5, 5⟩)]

/-- Model of `String.prototype.toLowerCase`: lower-case the string character
by character (`Char.toLower` is the ASCII case map, which covers every action
tag the mapping knows). -/
def jsToLower (s : String) : String :=
  ⟨s.data.map Char.toLower⟩

/-- Award lookup of the verify handler, line 129:
`mapping[action.toLowerCase()] || { points: 0, co2: 0 }`. -/
def awardVerify (action : String) : Award :=
  (verifyMapping.lookup (jsToLower action)).getD ⟨0, 0⟩

/-- Award lookup of the approve handler, line 172 (same expression). -/
def awardApprove (action : String) : Award :=
  (approveMapping.lookup (jsToLower action)).getD ⟨0, 0⟩

/-- Ledger credit (lines 133-139, duplicated at lines 177-183): findIndex on
`name` over the users array; on the first match increment `points` and `co2`
treating missing prior values as 0 (`x.points || 0`); when no entry matches,
push `{ name, points: award.points, co2: award.co2 }`. -/
def creditUsers : List UserEntry → String → Award → List UserEntry
  | [], name, a => [⟨name, none, some a.points, some a.co2⟩]
  | u :: rest, name, a =>
    if u.name == name then
      { u with points := some (u.points.getD 0 + a.points),
               co2 := some (u.co2.getD 0 + a.co2) } :: rest
    else
      u :: creditUsers rest name a

/-- Body of a POST /api/users request: `{ name, email?, points, co2 }`
(line 82); any field but `name` may be absent. -/
structure UserPayload where
  name : String
  email : Option String
  points : Option Int
  co2 : Option Int
deriving Repr, DecidableEq

/-- Direct upsert of POST /api/users (lines 84-91): findIndex on `name`;
on a match `Object.assign(arr[idx], u)` — fields present in the payload
overwrite, absent fields of the stored entry are preserved; otherwise push
the payload as a new entry. -/
def upsertUser : List UserEntry → UserPayload → List UserEntry
  | [], u => [⟨u.name, u.email, u.points, u.co2⟩]
  | x :: rest, u =>
    if x.name == u.name then
      { name := u.name, email := u.email <|> x.email,
        points := u.points <|> x.points, co2 := u.co2 <|> x.co2 } :: rest
    else
      x :: upsertUser rest u

/-- POST /api/users handler state transition (it only touches `users.json`). -/
def postUsers (s : St) (u : UserPayload) : St :=
  { s with users := upsertUser s.users u }

/-- Responses of POST /api/verify: the 400 `Missing fields` error, the
accepted reply `{ status: 'accepted', id, award }` (line 141), or the pending
reply `{ status: 'pending', id, filename }` (line 145). -/
inductive VerifyResponse where
  | missingFields
  | accepted (id : Nat) (award : Award)
  | pending (id : Nat) (filename : String)
deriving Repr, DecidableEq

/-- POST /api/verify handler (lines 99-150).  `user`/`action` are `none` when
the field is absent; absence and the empty string are exactly the falsy
strings of the guard `if (!user || !action || !req.file)` (line 103).
`now` stands for `Date.now()` (the assigned id) and the creation timestamp. -/
def submit (s : St) (user action : Option String) (file : Option UploadedFile)
    (now : Nat) : VerifyResponse × St :=
  match user, action, file with
  | some u, some a, some f =>
    if u = "" ∨ a = "" then (.missingFields, s)
    else
      let accepted : Bool := decide (2048 < f.size)
      let record : VerificationRecord :=
        { id := now, user := u, action := a, filename := f.filename,
          originalName := f.originalname,
          status := if accepted then "accepted" else "pending",
          timestamp := now }
      let s1 : St := { s with verifications := s.verifications ++ [record] }
      if accepted then
        let award := awardVerify a
        (.accepted record.id award, { s1 with users := creditUsers s1.users u award })
      else
        (.pending record.id record.filename, s1)
  | _, _, _ => (.missingFields, s)

/-- A JSON value arriving as the `id` of an approve request: the stored ids
are numbers, but a client may send the id as a number or as a string. -/
inductive JsVal where
  | num (n : Nat)
  | str (s : String)
deriving Repr, DecidableEq

/-- Model of ECMAScript ToNumber restricted to what `==` against a stored
numeric id needs: a non-empty all-digit string denotes its decimal value;
every other string is treated as NaN (`none`), which compares unequal to
every number.  (Fringe ToNumber inputs — signs, whitespace, hex — never
denote a `Date.now()` id and are folded into `none`.) -/
def toNumber? (s : String) : Option Nat :=
  if s.data ≠ [] ∧ s.data.all (fun c => c.isDigit) then
    some (s.data.foldl (fun n c => n * 10 + (c.toNat - Char.toNat (Char.ofNat 48))) 0)
  else none

/-- JS loose equality `x.id == id` (line 163) between the stored numeric id
and the request value: number-to-number compares numerically; a string is
coerced with ToNumber first. -/
def jsEqNat (rid : Nat) (v : JsVal) : Bool :=
  match v with
  | .num m => rid == m
  | .str s =>
    match toNumber? s with
    | some m => rid == m
    | none => false

/-- Responses of POST /api/verifications/approve: the 404 `Not found` error
or `{ status: 'ok', award }` (line 186). -/
inductive ApproveResponse where
  | notFound
  | ok (award : Award)
deriving Repr, DecidableEq

/-- The findIndex-and-mutate step of the approve handler (lines 163-166):
locate the first record loosely matching `id` and set its status to
`accepted`; returns the updated array together with the updated record
(`arr[idx]` after the assignment), or `none` when findIndex yields -1. -/
def approveList : List VerificationRecord → JsVal →
    Option (List VerificationRecord × VerificationRecord)
  | [], _ => none
  | r :: rest, v =>
    if jsEqNat r.id v then
      some ({ r with status := "accepted" } :: rest, { r with status := "accepted" })
    else
      match approveList rest v with
      | none => none
      | some (rest2, r2) => some (r :: rest2, r2)

/-- POST /api/verifications/approve handler (lines 158-191): 404 when no
record matches; otherwise persist the status change, compute the award from
the record's action and credit the record's user. -/
def approve (s : St) (v : JsVal) : ApproveResponse × St :=
  match approveList s.verifications v with
  | none => (.notFound, s)
  | some (vs2, r) =>
    let award := awardApprove r.action
    (.ok award, { s with verifications := vs2, users := creditUsers s.users r.user award })

/-- Observer: points of the first ledger entry named `name`, 0 when the entry
is absent or the field is missing — exactly how the credit code reads prior
values (findIndex on `name`, then `x.points || 0`). -/
def ledgerPoints (users : List UserEntry) (name : String) : Int :=
  match users.find? (fun e => e.name == name) with
  | some e => e.points.getD 0
  | none => 0

/-- Observer: co2 of the first ledger entry named `name` (0 when absent). -/
def ledgerCo2 (users : List UserEntry) (name : String) : Int :=
  match users.find? (fun e => e.name == name) with
  | some e => e.co2.getD 0
  | none => 0

/-- The non-negativity invariant of the users collection: every entry's
points and co2 (read the way the code reads them, missing = 0) are ≥ 0. -/
def nonNegLedger (users : List UserEntry) : Prop :=
  ∀ e ∈ users, 0 ≤ e.points.getD 0 ∧ 0 ≤ e.co2.getD 0

instance (users : List UserEntry) : Decidable (nonNegLedger users) := by
  unfold nonNegLedger; infer_instance

/-! Helper lemmas about the ledger credit. -/

theorem ledgerPoints_creditUsers (users : List UserEntry) (n : String) (a : Award) :
    ledgerPoints (creditUsers users n a) n = ledgerPoints users n + a.points := by
  induction users with
  | nil => simp [creditUsers, ledgerPoints, List.find?]
  | cons u rest ih =>
    by_cases h : u.name = n
    · have hb : (u.name == n) = true := by simp [h]
      simp [creditUsers, ledgerPoints, List.find?, hb]
    · have hb : (u.name == n) = false := by simp [h]
      simp only [creditUsers, hb, Bool.false_eq_true, if_false]
      simp only [ledgerPoints, List.find?, hb] at ih ⊢
      exact ih

theorem ledgerCo2_creditUsers (users : List UserEntry) (n : String) (a : Award) :
    ledgerCo2 (creditUsers users n a) n = ledgerCo2 users n + a.co2 := by
  induction users with
  | nil => simp [creditUsers, ledgerCo2, List.find?]
  | cons u rest ih =>
    by_cases h : u.name = n
    · have hb : (u.name == n) = true := by simp [h]
      simp [creditUsers, ledgerCo2, List.find?, hb]
    · have hb : (u.name == n) = false := by simp [h]
      simp only [creditUsers, hb, Bool.false_eq_true, if_false]
      simp only [ledgerCo2, List.find?, hb] at ih ⊢
      exact ih

theorem find?_creditUsers_isSome (users : List UserEntry) (n : String) (a : Award) :
    ((creditUsers users n a).find? (fun e => e.name == n)).isSome = true := by
  induction users with
  | nil => simp [creditUsers, List.find?]
  | cons u rest ih =>
    by_cases h : u.name = n
    · have hb : (u.name == n) = true := by simp [h]
      simp [creditUsers, List.find?, hb]
    · have hb : (u.name == n) = false := by simp [h]
      simp only [creditUsers, hb, Bool.false_eq_true, if_false]
      simp only [List.find?, hb]
      exact ih

theorem countP_creditUsers (users : List UserEntry) (n : String) (a : Award) :
    (creditUsers users n a).countP (fun e => e.name == n) =
      max (users.countP (fun e => e.name == n)) 1 := by
  induction users with
  | nil => simp [creditUsers]
  | cons u rest ih =>
    by_cases h : u.name = n
    · have hb : (u.name == n) = true := by simp [h]
      simp [creditUsers, List.countP_cons, hb]
    · have hb : (u.name == n) = false := by simp [h]
      simp [creditUsers, List.countP_cons, hb, ih]

theorem creditUsers_of_not_found (users : List UserEntry) (n : String) (a : Award)
    (h : users.find? (fun e => e.name == n) = none) :
    creditUsers users n a = users ++ [⟨n, none, some a.points, some a.co2⟩] := by
  induction users with
  | nil => simp [creditUsers]
  | cons u rest ih =>
    by_cases hu : u.name = n
    · have hb : (u.name == n) = true := by simp [hu]
      simp [List.find?, hb] at h
    · have hb : (u.name == n) = false := by simp [hu]
      simp only [List.find?, hb] at h
      simp [creditUsers, hb, ih h]

theorem length_creditUsers_of_found (users : List UserEntry) (n : String) (a : Award)
    (h : (users.find? (fun e => e.name == n)).isSome = true) :
    (creditUsers users n a).length = users.length := by
  induction users with
  | nil => simp [List.find?] at h
  | cons u rest ih =>
    by_cases hu : u.name = n
    · have hb : (u.name == n) = true := by simp [hu]
      simp [creditUsers, hb]
    · have hb : (u.name == n) = false := by simp [hu]
      simp only [List.find?, hb] at h
      simp [creditUsers, hb, ih h]

theorem nonNegLedger_creditUsers (users : List UserEntry) (n : String) (a : Award)
    (hp : 0 ≤ a.points) (hc : 0 ≤ a.co2) (h : nonNegLedger users) :
    nonNegLedger (creditUsers users n a) := by
  induction users with
  | nil =>
    intro e he
    simp [creditUsers] at he
    subst he
    exact ⟨hp, hc⟩
  | cons u rest ih =>
    have hu := h u (by simp)
    have hrest : nonNegLedger rest := fun e he => h e (by simp [he])
    by_cases hn : u.name = n
    · have hb : (u.name == n) = true := by simp [hn]
      intro e he
      simp only [creditUsers, hb, if_true, List.mem_cons] at he
      rcases he with he | he
      · subst he
        constructor
        · simpa using add_nonneg hu.1 hp
        · simpa using add_nonneg hu.2 hc
      · exact hrest e he
    · have hb : (u.name == n) = false := by simp [hn]
      intro e he
      simp only [creditUsers, hb, Bool.false_eq_true, if_false, List.mem_cons] at he
      rcases he with he | he
      · subst he; exact hu
      · exact ih hrest e he

/-! Characterisation of the two award lookups. -/

theorem awardVerify_eq (a : String) :
    awardVerify a =
      if jsToLower a = "plant" then ⟨20, 20⟩
      else if jsToLower a = "clean" then ⟨10, 10⟩
      else if jsToLower a = "awareness" then ⟨5, 5⟩
      else ⟨0, 0⟩ := by
  by_cases h1 : jsToLower a = "plant"
  · simp [awardVerify, verifyMapping, List.lookup, h1]
  · have b1 : (jsToLower a == "plant") = false := by simp [h1]
    by_cases h2 : jsToLower a = "clean"
    · simp [awardVerify, verifyMapping, List.lookup, b1, h1, h2]
    · have b2 : (jsToLower a == "clean") = false := by simp [h2]
      by_cases h3 : jsToLower a = "awareness"
      · simp [awardVerify, verifyMapping, List.lookup, b1, b2, h1, h2, h3]
      · have b3 : (jsToLower a == "awareness") = false := by simp [h3]
        simp [awardVerify, verifyMapping, List.lookup, b1, b2, b3, h1, h2, h3]

theorem awardApprove_eq_awardVerify (a : String) : awardApprove a = awardVerify a := rfl

theorem awardVerify_nonneg (a : String) :
    0 ≤ (awardVerify a).points ∧ 0 ≤ (awardVerify a).co2 := by
  rw [awardVerify_eq]
  split_ifs <;> exact ⟨by decide, by decide⟩

/-! Helper lemmas about the approval scan. -/

theorem approveList_eq_none (vs : List VerificationRecord) (v : JsVal)
    (h : ∀ r ∈ vs, jsEqNat r.id v = false) : approveList vs v = none := by
  induction vs with
  | nil => rfl
  | cons r rest ih =>
    have hr := h r (by simp)
    have hrest := ih (fun x hx => h x (by simp [hx]))
    simp [approveList, hr, hrest]

theorem approveList_isSome (vs : List VerificationRecord) (v : JsVal)
    (h : ∃ r ∈ vs, jsEqNat r.id v = true) : (approveList vs v).isSome = true := by
  induction vs with
  | nil => simp at h
  | cons r rest ih =>
    by_cases hr : jsEqNat r.id v
    · simp [approveList, hr]
    · rcases h with ⟨x, hx, hxe⟩
      rcases List.mem_cons.mp hx with hx | hx
      · subst hx; exact absurd hxe hr
      · have := ih ⟨x, hx, hxe⟩
        rcases hs : approveList rest v with _ | p
        · rw [hs] at this; simp at this
        · rcases p with ⟨rest2, r2⟩
          simp [approveList, hr, hs]

theorem approveList_eq_some (vs : List VerificationRecord) (v : JsVal)
    (vs2 : List VerificationRecord) (r : VerificationRecord)
    (h : approveList vs v = some (vs2, r)) :
    r.status = "accepted" ∧ r ∈ vs2 ∧
      ∃ r0 ∈ vs, jsEqNat r0.id v = true ∧ r = { r0 with status := "accepted" } := by
  induction vs generalizing vs2 r with
  | nil => simp [approveList] at h
  | cons x rest ih =>
    by_cases hx : jsEqNat x.id v
    · simp only [approveList, hx, if_true] at h
      rcases Prod.mk.injEq .. ▸ Option.some.inj h with ⟨h1, h2⟩
      subst h1
      refine ⟨by rw [← h2], by rw [← h2]; simp, x, by simp, hx, h2.symm⟩
    · simp only [approveList, hx, Bool.false_eq_true, if_false] at h
      rcases hs : approveList rest v with _ | p
      · rw [hs] at h; simp at h
      · rcases p with ⟨rest2, r2⟩
        rw [hs] at h
        simp only [Option.some.injEq, Prod.mk.injEq] at h
        rcases h with ⟨h1, h2⟩
        rcases ih rest2 r2 hs with ⟨hst, hmem, r0, hr0, hr0e, hr0eq⟩
        subst h2
        subst h1
        exact ⟨hst, by simp [hmem], r0, by simp [hr0], hr0e, hr0eq⟩

/-! Decimal round trip: the string Nat.repr produces is mapped back to the
same number by the ToNumber model. -/

theorem digitChar_sub_48 (d : Nat) (h : d < 10) :
    (Nat.digitChar d).toNat - Char.toNat (Char.ofNat 48) = d := by
  interval_cases d <;> decide

theorem digitChar_isDigit_of_lt (d : Nat) (h : d < 10) :
    (Nat.digitChar d).isDigit = true := by
  interval_cases d <;> decide

theorem toDigitsCore_ne_nil (f : Nat) :
    ∀ n ds, n < f → Nat.toDigitsCore 10 f n ds ≠ [] := by
  induction f with
  | zero => intro n ds h; omega
  | succ f ih =>
    intro n ds hn
    simp only [Nat.toDigitsCore]
    by_cases h0 : n / 10 = 0
    · rw [if_pos h0]; simp
    · rw [if_neg h0]
      exact ih (n / 10) (Nat.digitChar (n % 10) :: ds) (by omega)

theorem toDigitsCore_all_isDigit (f : Nat) :
    ∀ n ds, (∀ c ∈ ds, c.isDigit = true) →
      ∀ c ∈ Nat.toDigitsCore 10 f n ds, c.isDigit = true := by
  induction f with
  | zero => intro n ds hds; simpa [Nat.toDigitsCore] using hds
  | succ f ih =>
    intro n ds hds
    simp only [Nat.toDigitsCore]
    by_cases h0 : n / 10 = 0
    · rw [if_pos h0]
      intro c hc
      rcases List.mem_cons.mp hc with hc | hc
      · subst hc; exact digitChar_isDigit_of_lt _ (Nat.mod_lt _ (by norm_num))
      · exact hds c hc
    · rw [if_neg h0]
      refine ih (n / 10) _ ?_
      intro c hc
      rcases List.mem_cons.mp hc with hc | hc
      · subst hc; exact digitChar_isDigit_of_lt _ (Nat.mod_lt _ (by norm_num))
      · exact hds c hc

theorem toDigitsCore_foldl (f : Nat) :
    ∀ n ds, n < f →
      (Nat.toDigitsCore 10 f n ds).foldl
          (fun m c => m * 10 + (c.toNat - Char.toNat (Char.ofNat 48))) 0 =
        ds.foldl (fun m c => m * 10 + (c.toNat - Char.toNat (Char.ofNat 48))) n := by
  induction f with
  | zero => intro n ds h; omega
  | succ f ih =>
    intro n ds hn
    simp only [Nat.toDigitsCore]
    by_cases h0 : n / 10 = 0
    · rw [if_pos h0]
      simp only [List.foldl_cons]
      rw [digitChar_sub_48 (n % 10) (Nat.mod_lt _ (by norm_num))]
      have h1 : 0 * 10 + n % 10 = n := by omega
      rw [h1]
    · rw [if_neg h0]
      rw [ih (n / 10) (Nat.digitChar (n % 10) :: ds) (by omega)]
      simp only [List.foldl_cons]
      rw [digitChar_sub_48 (n % 10) (Nat.mod_lt _ (by norm_num))]
      have h1 : n / 10 * 10 + n % 10 = n := by omega
      rw [h1]

theorem toNumber?_repr (n : Nat) : toNumber? (Nat.repr n) = some n := by
  have hdata : (Nat.repr n).data = Nat.toDigitsCore 10 (n + 1) n [] := rfl
  have hne : Nat.toDigitsCore 10 (n + 1) n [] ≠ [] :=
    toDigitsCore_ne_nil (n + 1) n [] (Nat.lt_succ_self n)
  have hall : ∀ c ∈ Nat.toDigitsCore 10 (n + 1) n [], c.isDigit = true :=
    toDigitsCore_all_isDigit (n + 1) n [] (by intro c hc; simp at hc)
  have hfold := toDigitsCore_foldl (n + 1) n [] (Nat.lt_succ_self n)
  unfold toNumber?
  rw [hdata, if_pos ⟨hne, by simpa [List.all_eq_true] using hall⟩, hfold]
  simp

theorem jsEqNat_repr (rid n : Nat) : jsEqNat rid (JsVal.str (Nat.repr n)) = (rid == n) := by
  simp [jsEqNat, toNumber?_repr]

/-! Additional helper: upsert preserves non-negativity for non-negative
payloads. -/

theorem nonNegLedger_upsertUser (users : List UserEntry) (p : UserPayload)
    (hp : 0 ≤ p.points.getD 0) (hc : 0 ≤ p.co2.getD 0) (h : nonNegLedger users) :
    nonNegLedger (upsertUser users p) := by
  induction users with
  | nil =>
    intro e he
    simp [upsertUser] at he
    subst he
    exact ⟨hp, hc⟩
  | cons x rest ih =>
    have hx := h x (by simp)
    have hrest : nonNegLedger rest := fun e he => h e (by simp [he])
    by_cases hn : x.name = p.name
    · have hb : (x.name == p.name) = true := by simp [hn]
      intro e he
      simp only [upsertUser, hb, if_true, List.mem_cons] at he
      rcases he with he | he
      · subst he
        constructor
        · rcases hpp : p.points with _ | v
          · simpa [hpp] using hx.1
          · simpa [hpp] using hp.trans_eq (by rw [hpp]; rfl)
        · rcases hcc : p.co2 with _ | v
          · simpa [hcc] using hx.2
          · simpa [hcc] using hc.trans_eq (by rw [hcc]; rfl)
      · exact hrest e he
    · have hb : (x.name == p.name) = false := by simp [hn]
      intro e he
      simp only [upsertUser, hb, Bool.false_eq_true, if_false, List.mem_cons] at he
      rcases he with he | he
      · subst he; exact hx
      · exact ih hrest e he

/-! The claims. -/

/-- C1: for a submit call with non-empty user, non-empty action and an upload
present — when the upload is strictly larger than 2048 bytes the appended
record has status accepted, the user's ledger points and co2 each grow by
exactly the mapped award for the lower-cased action (the entry being created
when absent), and the response is accepted with id and award; when the upload
is at most 2048 bytes the appended record is pending, the users collection is
untouched, and the response is pending with id and filename. -/
theorem submit_size_heuristic (s : St) (u a : String) (f : UploadedFile) (now : Nat)
    (hu : u ≠ "") (ha : a ≠ "") :
    (2048 < f.size →
      (submit s (some u) (some a) (some f) now).1 = .accepted now (awardVerify a) ∧
      (submit s (some u) (some a) (some f) now).2.verifications =
        s.verifications ++ [⟨now, u, a, f.filename, f.originalname, "accepted", now⟩] ∧
      ledgerPoints (submit s (some u) (some a) (some f) now).2.users u =
        ledgerPoints s.users u + (awardVerify a).points ∧
      ledgerCo2 (submit s (some u) (some a) (some f) now).2.users u =
        ledgerCo2 s.users u + (awardVerify a).co2 ∧
      (((submit s (some u) (some a) (some f) now).2.users.find?
          (fun e => e.name == u)).isSome = true) ∧
      (submit s (some u) (some a) (some f) now).2.reports = s.reports) ∧
    (f.size ≤ 2048 →
      (submit s (some u) (some a) (some f) now).1 = .pending now f.filename ∧
      (submit s (some u) (some a) (some f) now).2.verifications =
        s.verifications ++ [⟨now, u, a, f.filename, f.originalname, "pending", now⟩] ∧
      (submit s (some u) (some a) (some f) now).2.users = s.users) := by
  have hg : ¬(u = "" ∨ a = "") := by
    rintro (h | h)
    · exact hu h
    · exact ha h
  constructor
  · intro hsz
    have hacc : decide (2048 < f.size) = true := decide_eq_true hsz
    have hs : submit s (some u) (some a) (some f) now =
        (.accepted now (awardVerify a),
          { s with
              verifications :=
                s.verifications ++ [⟨now, u, a, f.filename, f.originalname, "accepted", now⟩],
              users := creditUsers s.users u (awardVerify a) }) := by
      simp only [submit, if_neg hg, hacc, if_true]
    rw [hs]
    exact ⟨rfl, rfl, ledgerPoints_creditUsers .., ledgerCo2_creditUsers ..,
      find?_creditUsers_isSome .., rfl⟩
  · intro hsz
    have hacc : decide (2048 < f.size) = false := decide_eq_false (Nat.not_lt.mpr hsz)
    have hs : submit s (some u) (some a) (some f) now =
        (.pending now f.filename,
          { s with
              verifications :=
                s.verifications ++ [⟨now, u, a, f.filename, f.originalname, "pending", now⟩] }) := by
      simp only [submit, if_neg hg, hacc, Bool.false_eq_true, if_false]
    rw [hs]
    exact ⟨rfl, rfl, rfl⟩

/-- Witness for C1 at a concrete accepted submission. -/
theorem submit_size_heuristic_witness :
    ("Ava" : String) ≠ "" ∧ ("plant" : String) ≠ "" ∧ 2048 < (3000 : Nat) ∧
      (submit ⟨[], [], []⟩ (some "Ava") (some "plant") (some ⟨"f.jpg", "o.jpg", 3000⟩) 7).1 =
        .accepted 7 (awardVerify "plant") :=
  ⟨by decide, by decide, by decide,
    ((submit_size_heuristic ⟨[], [], []⟩ "Ava" "plant" ⟨"f.jpg", "o.jpg", 3000⟩ 7
      (by decide) (by decide)).1 (by decide)).1⟩

/-- C2 (defect in the code): approving a record whose status is already
accepted is not guarded — the handler sets the status again and credits the
award a second time.  The state below is exactly what an auto-accepted plant
submission by Ava leaves behind (record accepted, ledger 20/20); approving
that record's id answers ok with the plant award again and lifts Ava's
ledger to 40/40 instead of leaving it at 20/20. -/
theorem approve_accepted_double_credits :
    ledgerPoints [⟨"Ava", none, some 20, some 20⟩] "Ava" = 20 ∧
    ledgerCo2 [⟨"Ava", none, some 20, some 20⟩] "Ava" = 20 ∧
    (approve ⟨[], [⟨"Ava", none, some 20, some 20⟩],
        [⟨1, "Ava", "plant", "f.jpg", "o.jpg", "accepted", 1⟩]⟩ (.num 1)).1 =
      .ok ⟨20, 20⟩ ∧
    ledgerPoints (approve ⟨[], [⟨"Ava", none, some 20, some 20⟩],
        [⟨1, "Ava", "plant", "f.jpg", "o.jpg", "accepted", 1⟩]⟩ (.num 1)).2.users "Ava" = 40 ∧
    ledgerCo2 (approve ⟨[], [⟨"Ava", none, some 20, some 20⟩],
        [⟨1, "Ava", "plant", "f.jpg", "o.jpg", "accepted", 1⟩]⟩ (.num 1)).2.users "Ava" = 40 := by
  decide

/-- C3: a submit call with an absent or empty user, an absent or empty action,
or no uploaded file answers the MissingFields error and writes nothing: the
whole store, verifications and users included, is returned unchanged. -/
theorem submit_missing_fields (s : St) (user action : Option String)
    (file : Option UploadedFile) (now : Nat)
    (h : user = none ∨ user = some "" ∨ action = none ∨ action = some "" ∨ file = none) :
    submit s user action file now = (.missingFields, s) := by
  rcases h with h | h | h | h | h
  · subst h
    cases action <;> cases file <;> rfl
  · subst h
    rcases action with _ | a
    · cases file <;> rfl
    · rcases file with _ | f
      · rfl
      · simp [submit]
  · subst h
    cases user <;> cases file <;> rfl
  · subst h
    rcases user with _ | u
    · cases file <;> rfl
    · rcases file with _ | f
      · rfl
      · simp [submit]
  · subst h
    cases user <;> cases action <;> rfl

/-- Witness for C3: submitting with an empty user is refused unchanged. -/
theorem submit_missing_fields_witness :
    ((some "" : Option String) = none ∨ (some "" : Option String) = some "" ∨
      (some "plant" : Option String) = none ∨ (some "plant" : Option String) = some "" ∨
      (some (⟨"f.jpg", "o.jpg", 3000⟩ : UploadedFile) : Option UploadedFile) = none) ∧
    submit ⟨[], [], []⟩ (some "") (some "plant") (some ⟨"f.jpg", "o.jpg", 3000⟩) 7 =
      (.missingFields, ⟨[], [], []⟩) :=
  ⟨Or.inr (Or.inl rfl),
    submit_missing_fields ⟨[], [], []⟩ (some "") (some "plant")
      (some ⟨"f.jpg", "o.jpg", 3000⟩) 7 (Or.inr (Or.inl rfl))⟩

/-- C4: approving an id that matches no stored verification answers NotFound
and leaves every collection — reports, users, verifications — exactly as it
was. -/
theorem approve_not_found (s : St) (v : JsVal)
    (h : ∀ r ∈ s.verifications, jsEqNat r.id v = false) :
    (approve s v).1 = .notFound ∧ (approve s v).2.reports = s.reports ∧
      (approve s v).2.users = s.users ∧
      (approve s v).2.verifications = s.verifications := by
  have hn := approveList_eq_none s.verifications v h
  simp [approve, hn]

/-- Witness for C4 at a store holding one verification with a different id. -/
theorem approve_not_found_witness :
    (∀ r ∈ ([⟨5, "Ava", "plant", "f.jpg", "o.jpg", "pending", 5⟩] :
        List VerificationRecord), jsEqNat r.id (.num 7) = false) ∧
    (approve ⟨[], [], [⟨5, "Ava", "plant", "f.jpg", "o.jpg", "pending", 5⟩]⟩
        (.num 7)).1 = .notFound :=
  ⟨by decide,
    (approve_not_found ⟨[], [], [⟨5, "Ava", "plant", "f.jpg", "o.jpg", "pending", 5⟩]⟩
      (.num 7) (by decide)).1⟩

/-- C5: an action whose lower-cased form is none of plant, clean, awareness
maps to the zero award on the auto-accept path and on the approval path, and
crediting that zero award changes no ledger total. -/
theorem unknown_action_zero_award (a : String)
    (h : jsToLower a ≠ "plant" ∧ jsToLower a ≠ "clean" ∧ jsToLower a ≠ "awareness") :
    awardVerify a = ⟨0, 0⟩ ∧ awardApprove a = ⟨0, 0⟩ ∧
      ∀ (users : List UserEntry) (u : String),
        ledgerPoints (creditUsers users u (awardVerify a)) u = ledgerPoints users u ∧
        ledgerCo2 (creditUsers users u (awardVerify a)) u = ledgerCo2 users u := by
  have hv : awardVerify a = ⟨0, 0⟩ := by
    rw [awardVerify_eq, if_neg h.1, if_neg h.2.1, if_neg h.2.2]
  refine ⟨hv, by rw [awardApprove_eq_awardVerify, hv], ?_⟩
  intro users u
  constructor
  · rw [ledgerPoints_creditUsers, hv]; simp
  · rw [ledgerCo2_creditUsers, hv]; simp

/-- Witness for C5 at the unknown action recycle. -/
theorem unknown_action_zero_award_witness :
    (jsToLower "recycle" ≠ "plant" ∧ jsToLower "recycle" ≠ "clean" ∧
      jsToLower "recycle" ≠ "awareness") ∧
    awardVerify "recycle" = ⟨0, 0⟩ ∧ awardApprove "recycle" = ⟨0, 0⟩ :=
  ⟨by decide,
    (unknown_action_zero_award "recycle" (by decide)).1,
    (unknown_action_zero_award "recycle" (by decide)).2.1⟩

/-- C6: ledger credit is additive and keyed on name: an existing entry gets
its points and co2 incremented (missing prior values read as 0) with no entry
added or removed, an absent name gets a fresh entry appended carrying exactly
the award amounts, crediting 10/10 twice totals 20/20 rather than 10/10, and
the credit never creates a second entry for a name that already has one. -/
theorem creditUsers_additive_keyed (users : List UserEntry) (n : String) (a : Award) :
    (ledgerPoints (creditUsers users n a) n = ledgerPoints users n + a.points) ∧
    (ledgerCo2 (creditUsers users n a) n = ledgerCo2 users n + a.co2) ∧
    (users.find? (fun e => e.name == n) = none →
      creditUsers users n a = users ++ [⟨n, none, some a.points, some a.co2⟩]) ∧
    ((users.find? (fun e => e.name == n)).isSome = true →
      (creditUsers users n a).length = users.length) ∧
    ((creditUsers users n a).countP (fun e => e.name == n) =
      max (users.countP (fun e => e.name == n)) 1) ∧
    (ledgerPoints (creditUsers (creditUsers users n ⟨10, 10⟩) n ⟨10, 10⟩) n =
      ledgerPoints users n + 20) ∧
    (ledgerCo2 (creditUsers (creditUsers users n ⟨10, 10⟩) n ⟨10, 10⟩) n =
      ledgerCo2 users n + 20) := by
  refine ⟨ledgerPoints_creditUsers .., ledgerCo2_creditUsers ..,
    creditUsers_of_not_found users n a, length_creditUsers_of_found users n a,
    countP_creditUsers .., ?_, ?_⟩
  · rw [ledgerPoints_creditUsers, ledgerPoints_creditUsers]
    show ledgerPoints users n + 10 + 10 = ledgerPoints users n + 20
    omega
  · rw [ledgerCo2_creditUsers, ledgerCo2_creditUsers]
    show ledgerCo2 users n + 10 + 10 = ledgerCo2 users n + 20
    omega

/-- Witness for C6: double-crediting Ava with 10/10 from an empty ledger
totals 20, and the first credit appends exactly the award entry. -/
theorem creditUsers_additive_keyed_witness :
    (([] : List UserEntry).find? (fun e => e.name == "Ava") = none) ∧
    creditUsers [] "Ava" ⟨10, 10⟩ = [] ++ [⟨"Ava", none, some 10, some 10⟩] ∧
    ledgerPoints (creditUsers (creditUsers [] "Ava" ⟨10, 10⟩) "Ava" ⟨10, 10⟩) "Ava" = 0 + 20 :=
  ⟨rfl, (creditUsers_additive_keyed [] "Ava" ⟨10, 10⟩).2.2.1 rfl,
    (creditUsers_additive_keyed [] "Ava" ⟨10, 10⟩).2.2.2.2.2.1⟩

/-- C7: readAll never fails: when the backing store is absent or its content
does not parse, readJson answers the empty sequence instead of propagating
the error. -/
theorem readJson_never_fails {α : Type} (parse : String → Option (List α))
    (content : Option String)
    (h : content = none ∨ ∃ s, content = some s ∧ parse s = none) :
    readJson parse content = [] := by
  rcases h with h | ⟨s, hs, hp⟩
  · subst h; rfl
  · subst hs; simp [readJson, hp]

/-- Witness for C7 on corrupt users.json content that no parse accepts. -/
theorem readJson_never_fails_witness :
    ((some "not json" : Option String) = none ∨
      ∃ s, (some "not json" : Option String) = some s ∧
        (fun _ : String => (none : Option (List UserEntry))) s = none) ∧
    readJson (fun _ : String => (none : Option (List UserEntry))) (some "not json") = [] :=
  ⟨Or.inr ⟨"not json", rfl, rfl⟩,
    readJson_never_fails _ (some "not json") (Or.inr ⟨"not json", rfl, rfl⟩)⟩

/-- C8 as stated is false: the direct upsert endpoint stores whatever amounts
the payload carries, so a payload with negative points and co2 turns a ledger
satisfying the non-negativity invariant into one violating it. -/
theorem upsert_negative_counterexample :
    nonNegLedger [⟨"Ava", none, some 0, some 0⟩] ∧
      ¬ nonNegLedger (postUsers ⟨[], [⟨"Ava", none, some 0, some 0⟩], []⟩
          ⟨"Ava", none, some (-5), some (-5)⟩).users := by
  decide

/-- C8 (amended): non-negativity of every ledger entry is preserved by the
submit credit and by the approval credit unconditionally, and by the direct
upsert endpoint provided the payload's points and co2 (when present) are
themselves non-negative — the endpoint validates nothing. -/
theorem nonneg_ledger_preserved (s : St) :
    (∀ (user action : Option String) (file : Option UploadedFile) (now : Nat),
      nonNegLedger s.users → nonNegLedger (submit s user action file now).2.users) ∧
    (∀ v : JsVal, nonNegLedger s.users → nonNegLedger (approve s v).2.users) ∧
    (∀ p : UserPayload, nonNegLedger s.users → 0 ≤ p.points.getD 0 →
      0 ≤ p.co2.getD 0 → nonNegLedger (postUsers s p).users) := by
  refine ⟨?_, ?_, ?_⟩
  · intro user action file now h
    rcases user with _ | u <;> rcases action with _ | a <;> rcases file with _ | f <;>
      try exact h
    by_cases hg : u = "" ∨ a = ""
    · simp only [submit, if_pos hg]; exact h
    · simp only [submit, if_neg hg]
      by_cases hacc : decide (2048 < f.size) = true
      · simp only [hacc, if_true]
        exact nonNegLedger_creditUsers _ _ _ (awardVerify_nonneg a).1
          (awardVerify_nonneg a).2 h
      · simp only [Bool.not_eq_true] at hacc
        simp only [hacc, Bool.false_eq_true, if_false]
        exact h
  · intro v h
    rcases hs : approveList s.verifications v with _ | p
    · simp only [approve, hs]; exact h
    · rcases p with ⟨vs2, r⟩
      simp only [approve, hs]
      exact nonNegLedger_creditUsers _ _ _
        (by rw [awardApprove_eq_awardVerify]; exact (awardVerify_nonneg r.action).1)
        (by rw [awardApprove_eq_awardVerify]; exact (awardVerify_nonneg r.action).2) h
  · intro p h hp hc
    exact nonNegLedger_upsertUser s.users p hp hc h

/-- Witness for the amended C8 at a concrete accepted submission. -/
theorem nonneg_ledger_preserved_witness :
    nonNegLedger ([⟨"Ava", none, some 1, some 2⟩] : List UserEntry) ∧
    nonNegLedger (submit ⟨[], [⟨"Ava", none, some 1, some 2⟩], []⟩ (some "Ava")
      (some "plant") (some ⟨"f.jpg", "o.jpg", 3000⟩) 7).2.users :=
  ⟨by decide,
    (nonneg_ledger_preserved ⟨[], [⟨"Ava", none, some 1, some 2⟩], []⟩).1
      (some "Ava") (some "plant") (some ⟨"f.jpg", "o.jpg", 3000⟩) 7 (by decide)⟩

/-- C9: the award computation of the auto-accept path and the award
computation of the approval path are extensionally equal: both lower-case the
action and look it up in the same three-entry mapping with the same zero
default. -/
theorem award_paths_agree : ∀ a : String, awardVerify a = awardApprove a :=
  fun _ => rfl

/-- C10: the approve handler matches ids with JS loose equality, so a stored
verification whose numeric id is n is found — and approved — when the request
carries the decimal string form of n instead of the number. -/
theorem approve_string_id_coerces (s : St) (n : Nat)
    (h : ∃ r ∈ s.verifications, r.id = n) :
    (approve s (.str (Nat.repr n))).1 ≠ .notFound ∧
    ∃ r ∈ (approve s (.str (Nat.repr n))).2.verifications,
      r.id = n ∧ r.status = "accepted" := by
  rcases h with ⟨r, hr, hid⟩
  have hmatch : jsEqNat r.id (.str (Nat.repr n)) = true := by
    rw [jsEqNat_repr, hid]
    simp
  have hsome := approveList_isSome s.verifications (.str (Nat.repr n)) ⟨r, hr, hmatch⟩
  rcases hs : approveList s.verifications (.str (Nat.repr n)) with _ | p
  · rw [hs] at hsome; simp at hsome
  · rcases p with ⟨vs2, r2⟩
    rcases approveList_eq_some _ _ _ _ hs with ⟨hst, hmem, r0, _, hr0e, hr0eq⟩
    have hr0id : r0.id = n := by
      rw [jsEqNat_repr] at hr0e
      simpa using hr0e
    constructor
    · simp [approve, hs]
    · refine ⟨r2, ?_, ?_, hst⟩
      · simp only [approve, hs]
        exact hmem
      · rw [hr0eq]
        exact hr0id

/-- Witness for C10: approving with the string form of id 5 succeeds. -/
theorem approve_string_id_coerces_witness :
    (∃ r ∈ ([⟨5, "Ava", "plant", "f.jpg", "o.jpg", "pending", 5⟩] :
        List VerificationRecord), r.id = 5) ∧
    (approve ⟨[], [], [⟨5, "Ava", "plant", "f.jpg", "o.jpg", "pending", 5⟩]⟩
        (.str (Nat.repr 5))).1 ≠ .notFound :=
  ⟨⟨⟨5, "Ava", "plant", "f.jpg", "o.jpg", "pending", 5⟩, by simp, rfl⟩,
    (approve_string_id_coerces
      ⟨[], [], [⟨5, "Ava", "plant", "f.jpg", "o.jpg", "pending", 5⟩]⟩ 5
      ⟨⟨5, "Ava", "plant", "f.jpg", "o.jpg", "pending", 5⟩, by simp, rfl⟩).1⟩
